import Mathlib

/-!
Shallow embedding of the transaction-folding engine in `src/main.rs`:
the ledger data model (`Account`, `Deposit`, `DisputeState`), the event
fold (`process` / `applyTx`), and the fixed-point conversion helpers
(`to_minor`, `to_major`).

Rust's `HashMap` (used for both the client → `Account` map and the
per-account tx → `Deposit` registry) is modelled as an association list
with overwrite-on-insert semantics; iteration order of a `HashMap` is
unspecified in Rust and the spec declares output order irrelevant, so
the list order carries no meaning.  Machine integers (`i64` balances)
are modelled as `Int`: the program performs only additions and
subtractions of amounts, and the spec treats balances as exact signed
integers.  The `f64` input amount is modelled as a rational number and
`to_minor` as exact rational multiplication by 10,000 followed by
truncation toward zero.  This idealizes the source's floating-point
pipeline — the decimal parse and the `f64` multiply each round to
nearest, and the `as i64` cast saturates — so the theorems below never
rely on the numeric value of `to_minor q` beyond treating it as the
minor-unit amount carried by the event: it ranges over every integer
amount the real conversion can produce.
-/

/-- Lookup in an association list, mirroring `HashMap::get`. -/
def lookupA {α : Type} : List (Nat × α) → Nat → Option α
  | [], _ => none
  | (k, v) :: rest, k' => if k = k' then some v else lookupA rest k'

/-- Insert into an association list with overwrite, mirroring `HashMap::insert`. -/
def insertA {α : Type} : List (Nat × α) → Nat → α → List (Nat × α)
  | [], k, v => [(k, v)]
  | (k, v) :: rest, k', v' =>
      if k = k' then (k', v') :: rest else (k, v) :: insertA rest k' v'

/-- State of a possibly initiated dispute for a deposit transaction
(`enum DisputeState` in the source). -/
inductive DisputeState : Type
  | NotInitiated : DisputeState
  | Initiated : DisputeState
  | ChargedBack : DisputeState
deriving DecidableEq

/-- Deposit transaction state and amount (`struct Deposit`), stored for
dispute resolution purposes only.  `amount` is in minor units. -/
structure Deposit : Type where
  dispute_state : DisputeState
  amount : Int
deriving DecidableEq

/-- Current state of a client's account (`struct Account`).  The field
defaults mirror Rust's `#[derive(Default)]`. -/
structure Account : Type where
  locked : Bool := false
  available : Int := 0
  held : Int := 0
  deposits : List (Nat × Deposit) := []
deriving DecidableEq

/-- Supported transaction types (`enum TxType`). -/
inductive TxType : Type
  | Deposit : TxType
  | Withdrawal : TxType
  | Dispute : TxType
  | Resolve : TxType
  | Chargeback : TxType
deriving DecidableEq

/-- A row of the input CSV file (`struct InRow`), after parsing.  The
`amount` column is a decimal number, modelled as a rational. -/
structure InRow : Type where
  typ : TxType
  client : Nat
  tx : Nat
  amount : Option ℚ
deriving DecidableEq

/-- Convert an amount in major currency units to minor units
(`fn to_minor`), idealized over rationals: multiply by 10,000 exactly
and truncate toward zero.  The source computes
`(amount * 10_000_f64) as i64`; its parse and multiply roundings and
the saturating cast are not modelled, so theorems use `to_minor q`
only as an opaque minor-unit amount. -/
def to_minor (amount : ℚ) : Int :=
  (amount * 10000).num.tdiv ((amount * 10000).den : Int)

/-- Apply one event row to the account it targets: the body of the
`match (&row.typ, &row.amount)` in `process`.  Combinations not listed
(deposit or withdrawal with a missing amount) fall through to the
catch-all arm and change nothing. -/
def applyTx (acc : Account) (row : InRow) : Account :=
  match row.typ, row.amount with
  | TxType.Deposit, some amount =>
      let amount := to_minor amount
      { acc with
          available := acc.available + amount,
          deposits :=
            insertA acc.deposits row.tx ⟨DisputeState.NotInitiated, amount⟩ }
  | TxType.Withdrawal, some amount =>
      if acc.locked then acc
      else
        let amount := to_minor amount
        if acc.available ≥ amount then
          { acc with available := acc.available - amount }
        else acc
  | TxType.Dispute, _ =>
      match lookupA acc.deposits row.tx with
      | some d =>
          if d.dispute_state = DisputeState.NotInitiated then
            { acc with
                deposits :=
                  insertA acc.deposits row.tx ⟨DisputeState.Initiated, d.amount⟩,
                available := acc.available - d.amount,
                held := acc.held + d.amount }
          else acc
      | none => acc
  | TxType.Resolve, _ =>
      match lookupA acc.deposits row.tx with
      | some d =>
          if d.dispute_state = DisputeState.Initiated then
            { acc with
                deposits :=
                  insertA acc.deposits row.tx ⟨DisputeState.NotInitiated, d.amount⟩,
                available := acc.available + d.amount,
                held := acc.held - d.amount }
          else acc
      | none => acc
  | TxType.Chargeback, _ =>
      match lookupA acc.deposits row.tx with
      | some d =>
          if d.dispute_state = DisputeState.Initiated then
            { acc with
                deposits :=
                  insertA acc.deposits row.tx ⟨DisputeState.ChargedBack, d.amount⟩,
                held := acc.held - d.amount,
                locked := true }
          else acc
      | none => acc
  | _, _ => acc

/-- Account of client `c` in the map, defaulting like
`accounts.entry(c).or_default()` does before any mutation. -/
def getAcc (accounts : List (Nat × Account)) (c : Nat) : Account :=
  (lookupA accounts c).getD {}

/-- Process one input row against the account map:
`accounts.entry(row.client).or_default()` followed by the event match.
The entry is created (with defaults) even when the event turns out to
be a no-op on the account. -/
def processRow (accounts : List (Nat × Account)) (row : InRow) : List (Nat × Account) :=
  insertA accounts row.client (applyTx (getAcc accounts row.client) row)

/-- Fold a whole input stream over an initially empty account map: the
row loop of `fn process`. -/
def process (rows : List InRow) : List (Nat × Account) :=
  rows.foldl processRow []

/-- Left-pad a digit string with zeros to width four, the behavior of
`format!` for the fractional field. -/
def pad4 (s : String) : String :=
  String.mk (List.replicate (4 - s.length) '0') ++ s

/-- Convert an amount in minor currency units to a major-unit string of
four decimal digits (`fn to_major`): divide by 10,000 and render the
quotient with exactly four digits after the decimal point.  The source
formats `(amount as f64) / 10_000_f64` with four-digit precision; this
renders the exact digits instead, which agree wherever the i64-to-f64
conversion is exact. -/
def to_major (amount : Int) : String :=
  (if amount < 0 then "-" else "")
    ++ toString (amount.natAbs / 10000) ++ "."
    ++ pad4 (toString (amount.natAbs % 10000))

/-- A row of the output CSV file (`struct OutRow`). -/
structure OutRow : Type where
  client : Nat
  available : String
  held : String
  total : String
  locked : Bool
deriving DecidableEq

/-- Output projection: the serialization loop at the end of `process`,
one row per account ever touched, `total` computed as
`available + held`. -/
def outRows (accounts : List (Nat × Account)) : List OutRow :=
  accounts.map fun p =>
    { client := p.1
      available := to_major p.2.available
      held := to_major p.2.held
      total := to_major (p.2.available + p.2.held)
      locked := p.2.locked }

/-- Concrete deposit registry used to instantiate theorems: one deposit
in each dispute state. -/
def sampleDeposits : List (Nat × Deposit) :=
  [(1, ⟨DisputeState.NotInitiated, 10000⟩),
   (2, ⟨DisputeState.Initiated, 5000⟩),
   (3, ⟨DisputeState.ChargedBack, 7000⟩)]

/-- Concrete unlocked account used to instantiate theorems. -/
def sampleAcc : Account :=
  { locked := false, available := 30000, held := 5000, deposits := sampleDeposits }

/-- Concrete locked account used to instantiate theorems. -/
def sampleLockedAcc : Account :=
  { locked := true, available := 30000, held := 5000, deposits := sampleDeposits }

/-- Concrete one-client account map with an unlocked account. -/
def sampleMap : List (Nat × Account) := [(0, sampleAcc)]

/-- Concrete one-client account map with a locked account. -/
def sampleLockedMap : List (Nat × Account) := [(0, sampleLockedAcc)]

/-! ### Association-list laws -/

theorem lookupA_insertA_self {α : Type} (m : List (Nat × α)) (k : Nat) (v : α) :
    lookupA (insertA m k v) k = some v := by
  induction m with
  | nil => simp [insertA, lookupA]
  | cons p rest ih =>
      obtain ⟨a, b⟩ := p
      by_cases h : a = k
      · simp [insertA, h, lookupA]
      · simp [insertA, h, lookupA, ih]

theorem lookupA_insertA_ne {α : Type} (m : List (Nat × α)) (k k' : Nat) (v : α)
    (h : k ≠ k') : lookupA (insertA m k v) k' = lookupA m k' := by
  induction m with
  | nil => simp [insertA, lookupA, h]
  | cons p rest ih =>
      obtain ⟨a, b⟩ := p
      by_cases ha : a = k
      · subst ha
        simp [insertA, lookupA, h]
      · simp [insertA, ha, lookupA, ih]

theorem insertA_insertA {α : Type} (m : List (Nat × α)) (k : Nat) (v w : α) :
    insertA (insertA m k v) k w = insertA m k w := by
  induction m with
  | nil => simp [insertA]
  | cons p rest ih =>
      obtain ⟨a, b⟩ := p
      by_cases h : a = k
      · simp [insertA, h]
      · simp [insertA, h, ih]

theorem insertA_lookupA_self {α : Type} (m : List (Nat × α)) (k : Nat) (v : α)
    (h : lookupA m k = some v) : insertA m k v = m := by
  induction m with
  | nil => simp [lookupA] at h
  | cons p rest ih =>
      obtain ⟨a, b⟩ := p
      by_cases ha : a = k
      · subst ha
        simp [lookupA] at h
        simp [insertA, h]
      · simp [lookupA, ha] at h
        simp [insertA, ha, ih h]

/-! ### Arm lemmas for `applyTx` -/

theorem applyTx_deposit (acc : Account) (c tx : Nat) (q : ℚ) :
    applyTx acc ⟨TxType.Deposit, c, tx, some q⟩ =
      { acc with
          available := acc.available + to_minor q,
          deposits :=
            insertA acc.deposits tx ⟨DisputeState.NotInitiated, to_minor q⟩ } := rfl

theorem applyTx_deposit_none (acc : Account) (c tx : Nat) :
    applyTx acc ⟨TxType.Deposit, c, tx, none⟩ = acc := rfl

theorem applyTx_withdrawal (acc : Account) (c tx : Nat) (q : ℚ) :
    applyTx acc ⟨TxType.Withdrawal, c, tx, some q⟩ =
      if acc.locked then acc
      else if acc.available ≥ to_minor q then
        { acc with available := acc.available - to_minor q }
      else acc := rfl

theorem applyTx_withdrawal_none (acc : Account) (c tx : Nat) :
    applyTx acc ⟨TxType.Withdrawal, c, tx, none⟩ = acc := rfl

theorem applyTx_dispute_hit (acc : Account) (c tx : Nat) (a : Option ℚ) (d : Deposit)
    (h : lookupA acc.deposits tx = some d) :
    applyTx acc ⟨TxType.Dispute, c, tx, a⟩ =
      if d.dispute_state = DisputeState.NotInitiated then
        { acc with
            deposits := insertA acc.deposits tx ⟨DisputeState.Initiated, d.amount⟩,
            available := acc.available - d.amount,
            held := acc.held + d.amount }
      else acc := by
  cases a <;> simp [applyTx, h]

theorem applyTx_dispute_miss (acc : Account) (c tx : Nat) (a : Option ℚ)
    (h : lookupA acc.deposits tx = none) :
    applyTx acc ⟨TxType.Dispute, c, tx, a⟩ = acc := by
  cases a <;> simp [applyTx, h]

theorem applyTx_resolve_hit (acc : Account) (c tx : Nat) (a : Option ℚ) (d : Deposit)
    (h : lookupA acc.deposits tx = some d) :
    applyTx acc ⟨TxType.Resolve, c, tx, a⟩ =
      if d.dispute_state = DisputeState.Initiated then
        { acc with
            deposits := insertA acc.deposits tx ⟨DisputeState.NotInitiated, d.amount⟩,
            available := acc.available + d.amount,
            held := acc.held - d.amount }
      else acc := by
  cases a <;> simp [applyTx, h]

theorem applyTx_resolve_miss (acc : Account) (c tx : Nat) (a : Option ℚ)
    (h : lookupA acc.deposits tx = none) :
    applyTx acc ⟨TxType.Resolve, c, tx, a⟩ = acc := by
  cases a <;> simp [applyTx, h]

theorem applyTx_chargeback_hit (acc : Account) (c tx : Nat) (a : Option ℚ) (d : Deposit)
    (h : lookupA acc.deposits tx = some d) :
    applyTx acc ⟨TxType.Chargeback, c, tx, a⟩ =
      if d.dispute_state = DisputeState.Initiated then
        { acc with
            deposits := insertA acc.deposits tx ⟨DisputeState.ChargedBack, d.amount⟩,
            held := acc.held - d.amount,
            locked := true }
      else acc := by
  cases a <;> simp [applyTx, h]

theorem applyTx_chargeback_miss (acc : Account) (c tx : Nat) (a : Option ℚ)
    (h : lookupA acc.deposits tx = none) :
    applyTx acc ⟨TxType.Chargeback, c, tx, a⟩ = acc := by
  cases a <;> simp [applyTx, h]

/-! ### Lemmas about `getAcc` and `processRow` -/

theorem getAcc_insertA_self (m : List (Nat × Account)) (c : Nat) (acc : Account) :
    getAcc (insertA m c acc) c = acc := by
  simp [getAcc, lookupA_insertA_self]

theorem getAcc_insertA_ne (m : List (Nat × Account)) (c c' : Nat) (acc : Account)
    (h : c ≠ c') : getAcc (insertA m c acc) c' = getAcc m c' := by
  simp [getAcc, lookupA_insertA_ne _ _ _ _ h]

theorem getAcc_processRow (accounts : List (Nat × Account)) (row : InRow) (c : Nat) :
    getAcc (processRow accounts row) c =
      if row.client = c then applyTx (getAcc accounts row.client) row
      else getAcc accounts c := by
  by_cases h : row.client = c
  · subst h
    simp [processRow, getAcc_insertA_self]
  · simp [processRow, h, getAcc_insertA_ne _ _ _ _ h]

/-! ### Lock behavior of single events -/

theorem applyTx_locked (acc : Account) (row : InRow) (h : acc.locked = true) :
    (applyTx acc row).locked = true := by
  obtain ⟨typ, c, tx, a⟩ := row
  cases typ with
  | Deposit =>
      cases a with
      | none => simpa [applyTx_deposit_none] using h
      | some q => simp [applyTx_deposit, h]
  | Withdrawal =>
      cases a with
      | none => simpa [applyTx_withdrawal_none] using h
      | some q => rw [applyTx_withdrawal]; simp [h]
  | Dispute =>
      rcases hl : lookupA acc.deposits tx with _ | d
      · rw [applyTx_dispute_miss _ _ _ _ hl]; exact h
      · rw [applyTx_dispute_hit _ _ _ _ _ hl]
        split <;> simp [h]
  | Resolve =>
      rcases hl : lookupA acc.deposits tx with _ | d
      · rw [applyTx_resolve_miss _ _ _ _ hl]; exact h
      · rw [applyTx_resolve_hit _ _ _ _ _ hl]
        split <;> simp [h]
  | Chargeback =>
      rcases hl : lookupA acc.deposits tx with _ | d
      · rw [applyTx_chargeback_miss _ _ _ _ hl]; exact h
      · rw [applyTx_chargeback_hit _ _ _ _ _ hl]
        split <;> simp [h]

theorem applyTx_withdrawal_locked (acc : Account) (c tx : Nat) (q : ℚ)
    (h : acc.locked = true) :
    applyTx acc ⟨TxType.Withdrawal, c, tx, some q⟩ = acc := by
  rw [applyTx_withdrawal]; simp [h]

theorem getAcc_processRow_noop (accounts : List (Nat × Account)) (row : InRow)
    (h : applyTx (getAcc accounts row.client) row = getAcc accounts row.client) :
    ∀ c', getAcc (processRow accounts row) c' = getAcc accounts c' := by
  intro c'
  rw [getAcc_processRow]
  split
  · next heq => rw [h, heq]
  · rfl

theorem getAcc_foldl_locked (rows : List InRow) (accounts : List (Nat × Account))
    (c : Nat) (h : (getAcc accounts c).locked = true) :
    (getAcc (rows.foldl processRow accounts) c).locked = true := by
  induction rows generalizing accounts with
  | nil => simpa using h
  | cons row rest ih =>
      simp only [List.foldl_cons]
      refine ih _ ?_
      rw [getAcc_processRow]
      split
      · next heq => exact applyTx_locked _ _ (by rw [heq]; exact h)
      · exact h

/-! ### Characterization of the fixed-point conversions -/

theorem tdiv_num_den (r : ℚ) (h : 0 ≤ r) : r.num.tdiv (r.den : Int) = ⌊r⌋ := by
  rw [Int.tdiv_eq_ediv (Rat.num_nonneg.mpr h) (Int.natCast_nonneg _), Rat.floor_def]

theorem to_minor_eq_floor (q : ℚ) (h : 0 ≤ q) : to_minor q = ⌊q * 10000⌋ := by
  have h10 : (0 : ℚ) ≤ q * 10000 := by positivity
  rw [to_minor, tdiv_num_den _ h10]

theorem to_minor_eq_ceil (q : ℚ) (h : q ≤ 0) : to_minor q = ⌈q * 10000⌉ := by
  have h10 : q * 10000 ≤ 0 := by
    have := mul_le_mul_of_nonneg_right h (show (0 : ℚ) ≤ 10000 by norm_num)
    simpa using this
  have hneg : (0 : ℚ) ≤ -(q * 10000) := neg_nonneg.mpr h10
  rw [to_minor, show (q * 10000).num.tdiv ((q * 10000).den : Int)
        = -((-(q * 10000)).num.tdiv ((-(q * 10000)).den : Int)) by
      rw [Rat.neg_num, Rat.neg_den, Int.neg_tdiv, neg_neg],
    tdiv_num_den _ hneg, Int.floor_neg, neg_neg]

theorem to_minor_intCast (n : Int) : to_minor (n : ℚ) = n * 10000 := by
  have hcast : ((n : ℚ) * 10000) = ((n * 10000 : Int) : ℚ) := by push_cast; ring
  rcases le_or_lt 0 n with h | h
  · have h' : (0 : ℚ) ≤ (n : ℚ) := by exact_mod_cast h
    rw [to_minor_eq_floor _ h', hcast, Int.floor_intCast]
  · have h' : (n : ℚ) ≤ 0 := by exact_mod_cast h.le
    rw [to_minor_eq_ceil _ h', hcast, Int.ceil_intCast]

theorem to_minor_one : to_minor 1 = 10000 := by
  have h := to_minor_intCast 1
  norm_num at h
  exact h



theorem insertA_append_of_none {α : Type} (m : List (Nat × α)) (k : Nat) (v : α)
    (h : lookupA m k = none) : insertA m k v = m ++ [(k, v)] := by
  induction m with
  | nil => simp [insertA]
  | cons p rest ih =>
      obtain ⟨a, b⟩ := p
      by_cases ha : a = k
      · subst ha
        simp [lookupA] at h
      · simp [lookupA, ha] at h
        simp [insertA, ha, ih h]

theorem dispute_then_resolve (acc : Account) (c c2 tx : Nat) (a b : Option ℚ)
    (d : Deposit) (hd : lookupA acc.deposits tx = some d)
    (hs : d.dispute_state = DisputeState.NotInitiated) :
    applyTx (applyTx acc ⟨TxType.Dispute, c, tx, a⟩) ⟨TxType.Resolve, c2, tx, b⟩ = acc := by
  rw [applyTx_dispute_hit _ _ _ _ _ hd, if_pos hs]
  have h1 : lookupA (insertA acc.deposits tx ⟨DisputeState.Initiated, d.amount⟩) tx
      = some ⟨DisputeState.Initiated, d.amount⟩ := lookupA_insertA_self _ _ _
  rw [applyTx_resolve_hit _ _ _ _ _ h1, if_pos rfl]
  have hde : (⟨DisputeState.NotInitiated, d.amount⟩ : Deposit) = d := by
    obtain ⟨ds, am⟩ := d
    cases hs
    rfl
  obtain ⟨lk, av, hl, dp⟩ := acc
  simp only [insertA_insertA]
  simp only at hd
  simp [Account.mk.injEq, hde, insertA_lookupA_self _ _ _ hd]

/-- C1: for every reachable account map and every Withdrawal event with an
amount present, if the target account is not locked and its available
balance covers the (minor-unit) amount, available decreases by exactly
that amount and every other field of every account is unchanged; if the
account is locked or funds are insufficient, the event leaves every
account's state (available, held, locked, deposits) unchanged, and the
fold is total, so no error is raised. -/
theorem withdrawal_rule (accounts : List (Nat × Account)) (c tx : Nat) (q : ℚ)
    (row : InRow) (hrow : row = ⟨TxType.Withdrawal, c, tx, some q⟩) :
    ((getAcc accounts c).locked = false →
      to_minor q ≤ (getAcc accounts c).available →
      getAcc (processRow accounts row) c =
        { getAcc accounts c with
            available := (getAcc accounts c).available - to_minor q }
      ∧ ∀ c', c' ≠ c → getAcc (processRow accounts row) c' = getAcc accounts c')
    ∧ ((getAcc accounts c).locked = true ∨
        (getAcc accounts c).available < to_minor q →
      ∀ c', getAcc (processRow accounts row) c' = getAcc accounts c') := by
  subst hrow
  constructor
  · intro hlock hav
    constructor
    · rw [getAcc_processRow]
      simp only [if_pos rfl]
      rw [applyTx_withdrawal]
      simp [hlock, ge_iff_le, hav]
    · intro c' hc'
      rw [getAcc_processRow]
      simp only []
      rw [if_neg]
      exact fun h => hc' h.symm
  · intro hcase
    apply getAcc_processRow_noop
    rw [applyTx_withdrawal]
    rcases hcase with h | h
    · simp [h]
    · split
      · rfl
      · rw [if_neg]
        simp [not_le.mpr h]

/-- Witness for C1 on a concrete map: the account is unlocked with
sufficient funds, and the withdrawal debits it. -/
theorem withdrawal_rule_witness :
    ((getAcc sampleMap 0).locked = false
      ∧ to_minor 1 ≤ (getAcc sampleMap 0).available)
    ∧ (getAcc (processRow sampleMap ⟨TxType.Withdrawal, 0, 9, some 1⟩) 0 =
        { getAcc sampleMap 0 with
            available := (getAcc sampleMap 0).available - to_minor 1 }
      ∧ ∀ c', c' ≠ 0 →
          getAcc (processRow sampleMap ⟨TxType.Withdrawal, 0, 9, some 1⟩) c'
            = getAcc sampleMap c') :=
  ⟨⟨by decide, by rw [to_minor_one]; decide⟩,
    (withdrawal_rule sampleMap 0 9 1 _ rfl).1 (by decide)
      (by rw [to_minor_one]; decide)⟩

/-- C2: a Dispute event succeeds exactly when the client's own account has
a Deposit record for the event's tx in state `NotInitiated`: the record
moves to `Initiated`, available decreases by the deposit's amount, and
held increases by the same amount; with no such record, or with the
record in state `Initiated` or `ChargedBack`, no account's state changes,
and the fold is total, so no error is raised. -/
theorem dispute_rule (accounts : List (Nat × Account)) (c tx : Nat)
    (a : Option ℚ) (row : InRow) (hrow : row = ⟨TxType.Dispute, c, tx, a⟩) :
    (∀ d : Deposit,
      lookupA (getAcc accounts c).deposits tx = some d →
      ((d.dispute_state = DisputeState.NotInitiated →
         getAcc (processRow accounts row) c =
           { getAcc accounts c with
               deposits :=
                 insertA (getAcc accounts c).deposits tx
                   ⟨DisputeState.Initiated, d.amount⟩,
               available := (getAcc accounts c).available - d.amount,
               held := (getAcc accounts c).held + d.amount }
         ∧ ∀ c', c' ≠ c →
             getAcc (processRow accounts row) c' = getAcc accounts c')
       ∧ (d.dispute_state ≠ DisputeState.NotInitiated →
           ∀ c', getAcc (processRow accounts row) c' = getAcc accounts c')))
    ∧ (lookupA (getAcc accounts c).deposits tx = none →
        ∀ c', getAcc (processRow accounts row) c' = getAcc accounts c') := by
  subst hrow
  constructor
  · intro d hd
    constructor
    · intro hs
      constructor
      · rw [getAcc_processRow]
        simp only [if_pos rfl]
        rw [applyTx_dispute_hit _ _ _ _ _ hd]
        simp [hs]
      · intro c' hc'
        rw [getAcc_processRow]
        rw [if_neg fun h => hc' h.symm]
    · intro hs
      apply getAcc_processRow_noop
      rw [applyTx_dispute_hit _ _ _ _ _ hd, if_neg hs]
  · intro hmiss
    apply getAcc_processRow_noop
    exact applyTx_dispute_miss _ _ _ _ hmiss

/-- Witness for C2 on a concrete map: tx 1 is a deposit in state
`NotInitiated`, and disputing it moves its amount from available to held. -/
theorem dispute_rule_witness :
    lookupA (getAcc sampleMap 0).deposits 1
      = some ⟨DisputeState.NotInitiated, 10000⟩
    ∧ (getAcc (processRow sampleMap ⟨TxType.Dispute, 0, 1, none⟩) 0 =
        { getAcc sampleMap 0 with
            deposits :=
              insertA (getAcc sampleMap 0).deposits 1
                ⟨DisputeState.Initiated, 10000⟩,
            available := (getAcc sampleMap 0).available - 10000,
            held := (getAcc sampleMap 0).held + 10000 }
      ∧ ∀ c', c' ≠ 0 →
          getAcc (processRow sampleMap ⟨TxType.Dispute, 0, 1, none⟩) c'
            = getAcc sampleMap c') :=
  ⟨by decide,
    ((dispute_rule sampleMap 0 1 none _ rfl).1
      ⟨DisputeState.NotInitiated, 10000⟩ (by decide)).1 rfl⟩

/-- C3: a Chargeback event succeeds exactly when the client's account has
a Deposit record for the event's tx in state `Initiated`: the record
moves to `ChargedBack`, held decreases by the deposit's amount, the
account becomes locked, and available is unchanged; otherwise no
account's state changes. -/
theorem chargeback_rule (accounts : List (Nat × Account)) (c tx : Nat)
    (a : Option ℚ) (row : InRow) (hrow : row = ⟨TxType.Chargeback, c, tx, a⟩) :
    (∀ d : Deposit,
      lookupA (getAcc accounts c).deposits tx = some d →
      ((d.dispute_state = DisputeState.Initiated →
         getAcc (processRow accounts row) c =
           { getAcc accounts c with
               deposits :=
                 insertA (getAcc accounts c).deposits tx
                   ⟨DisputeState.ChargedBack, d.amount⟩,
               held := (getAcc accounts c).held - d.amount,
               locked := true }
         ∧ (getAcc (processRow accounts row) c).available
             = (getAcc accounts c).available
         ∧ ∀ c', c' ≠ c →
             getAcc (processRow accounts row) c' = getAcc accounts c')
       ∧ (d.dispute_state ≠ DisputeState.Initiated →
           ∀ c', getAcc (processRow accounts row) c' = getAcc accounts c')))
    ∧ (lookupA (getAcc accounts c).deposits tx = none →
        ∀ c', getAcc (processRow accounts row) c' = getAcc accounts c') := by
  subst hrow
  constructor
  · intro d hd
    constructor
    · intro hs
      have hsucc : getAcc (processRow accounts ⟨TxType.Chargeback, c, tx, a⟩) c =
          { getAcc accounts c with
              deposits :=
                insertA (getAcc accounts c).deposits tx
                  ⟨DisputeState.ChargedBack, d.amount⟩,
              held := (getAcc accounts c).held - d.amount,
              locked := true } := by
        rw [getAcc_processRow]
        simp only [if_pos rfl]
        rw [applyTx_chargeback_hit _ _ _ _ _ hd]
        simp [hs]
      refine ⟨hsucc, by rw [hsucc], ?_⟩
      intro c' hc'
      rw [getAcc_processRow]
      rw [if_neg fun h => hc' h.symm]
    · intro hs
      apply getAcc_processRow_noop
      rw [applyTx_chargeback_hit _ _ _ _ _ hd, if_neg hs]
  · intro hmiss
    apply getAcc_processRow_noop
    exact applyTx_chargeback_miss _ _ _ _ hmiss

/-- Witness for C3 on a concrete map: tx 2 is a deposit under dispute
(state `Initiated`), and charging it back locks the account, debits held,
and leaves available alone. -/
theorem chargeback_rule_witness :
    lookupA (getAcc sampleMap 0).deposits 2
      = some ⟨DisputeState.Initiated, 5000⟩
    ∧ (getAcc (processRow sampleMap ⟨TxType.Chargeback, 0, 2, none⟩) 0 =
        { getAcc sampleMap 0 with
            deposits :=
              insertA (getAcc sampleMap 0).deposits 2
                ⟨DisputeState.ChargedBack, 5000⟩,
            held := (getAcc sampleMap 0).held - 5000,
            locked := true }
      ∧ (getAcc (processRow sampleMap ⟨TxType.Chargeback, 0, 2, none⟩) 0).available
          = (getAcc sampleMap 0).available
      ∧ ∀ c', c' ≠ 0 →
          getAcc (processRow sampleMap ⟨TxType.Chargeback, 0, 2, none⟩) c'
            = getAcc sampleMap c') :=
  ⟨by decide,
    ((chargeback_rule sampleMap 0 2 none _ rfl).1
      ⟨DisputeState.Initiated, 5000⟩ (by decide)).1 rfl⟩

/-- C4: for every account and every deposit record in state
`NotInitiated`, a Dispute for its tx followed by a Resolve for the same
tx restores the account exactly — available and held return to their
pre-dispute values and the record returns to `NotInitiated` (so a later
Dispute on the same transaction is enabled again). -/
theorem dispute_resolve_round_trip (acc : Account) (c c2 tx : Nat)
    (a b : Option ℚ) (d : Deposit)
    (hd : lookupA acc.deposits tx = some d)
    (hs : d.dispute_state = DisputeState.NotInitiated) :
    applyTx (applyTx acc ⟨TxType.Dispute, c, tx, a⟩) ⟨TxType.Resolve, c2, tx, b⟩
      = acc :=
  dispute_then_resolve acc c c2 tx a b d hd hs

/-- Witness for C4 on a concrete account: disputing and then resolving
tx 1 returns the account to exactly its original state. -/
theorem dispute_resolve_round_trip_witness :
    lookupA sampleAcc.deposits 1 = some ⟨DisputeState.NotInitiated, 10000⟩
    ∧ applyTx (applyTx sampleAcc ⟨TxType.Dispute, 0, 1, none⟩)
        ⟨TxType.Resolve, 0, 1, none⟩ = sampleAcc :=
  ⟨by decide,
    dispute_resolve_round_trip sampleAcc 0 0 1 none none
      ⟨DisputeState.NotInitiated, 10000⟩ (by decide) rfl⟩

/-- C5 (amended): a deposit's dispute state is always one of the three
defined states; a record keyed by some tx reaches `ChargedBack` after an
event only if it already was `ChargedBack` or the event is a Chargeback
for that client and tx applied while the record was `Initiated`; and a
`ChargedBack` record is left untouched by every subsequent event except
a Deposit event that reuses the same client and tx with an amount
present, which overwrites the record and resets it to `NotInitiated`. -/
theorem dispute_state_machine (accounts : List (Nat × Account)) (row : InRow)
    (c tx : Nat) :
    (∀ d : DisputeState, d = DisputeState.NotInitiated ∨
        d = DisputeState.Initiated ∨ d = DisputeState.ChargedBack)
    ∧ (∀ d' : Deposit,
        lookupA (getAcc (processRow accounts row) c).deposits tx = some d' →
        d'.dispute_state = DisputeState.ChargedBack →
        (∃ d : Deposit, lookupA (getAcc accounts c).deposits tx = some d ∧
            d.dispute_state = DisputeState.ChargedBack)
        ∨ (row.typ = TxType.Chargeback ∧ row.client = c ∧ row.tx = tx ∧
            ∃ d : Deposit, lookupA (getAcc accounts c).deposits tx = some d ∧
              d.dispute_state = DisputeState.Initiated))
    ∧ (∀ d : Deposit,
        lookupA (getAcc accounts c).deposits tx = some d →
        d.dispute_state = DisputeState.ChargedBack →
        ¬(row.typ = TxType.Deposit ∧ row.client = c ∧ row.tx = tx ∧
            row.amount ≠ none) →
        lookupA (getAcc (processRow accounts row) c).deposits tx = some d) := by
  refine ⟨fun d => by cases d <;> simp, ?_, ?_⟩
  · intro d' hafter hcb
    rw [getAcc_processRow] at hafter
    by_cases hc : row.client = c
    · rw [if_pos hc] at hafter
      obtain ⟨typ, cl, tx', a⟩ := row
      dsimp only at hc hafter ⊢
      subst cl
      cases typ with
      | Deposit =>
          cases a with
          | none =>
              rw [applyTx_deposit_none] at hafter
              exact Or.inl ⟨d', hafter, hcb⟩
          | some q =>
              rw [applyTx_deposit] at hafter
              dsimp only at hafter
              by_cases htx : tx' = tx
              · subst htx
                rw [lookupA_insertA_self] at hafter
                injection hafter with h0
                rw [← h0] at hcb
                simp at hcb
              · rw [lookupA_insertA_ne _ _ _ _ htx] at hafter
                exact Or.inl ⟨d', hafter, hcb⟩
      | Withdrawal =>
          cases a with
          | none =>
              rw [applyTx_withdrawal_none] at hafter
              exact Or.inl ⟨d', hafter, hcb⟩
          | some q =>
              rw [applyTx_withdrawal] at hafter
              split at hafter
              · exact Or.inl ⟨d', hafter, hcb⟩
              · split at hafter
                · dsimp only at hafter
                  exact Or.inl ⟨d', hafter, hcb⟩
                · exact Or.inl ⟨d', hafter, hcb⟩
      | Dispute =>
          rcases hl : lookupA (getAcc accounts c).deposits tx' with _ | d0
          · rw [applyTx_dispute_miss _ _ _ _ hl] at hafter
            exact Or.inl ⟨d', hafter, hcb⟩
          · rw [applyTx_dispute_hit _ _ _ _ _ hl] at hafter
            split at hafter
            · dsimp only at hafter
              by_cases htx : tx' = tx
              · subst htx
                rw [lookupA_insertA_self] at hafter
                injection hafter with h0
                rw [← h0] at hcb
                simp at hcb
              · rw [lookupA_insertA_ne _ _ _ _ htx] at hafter
                exact Or.inl ⟨d', hafter, hcb⟩
            · exact Or.inl ⟨d', hafter, hcb⟩
      | Resolve =>
          rcases hl : lookupA (getAcc accounts c).deposits tx' with _ | d0
          · rw [applyTx_resolve_miss _ _ _ _ hl] at hafter
            exact Or.inl ⟨d', hafter, hcb⟩
          · rw [applyTx_resolve_hit _ _ _ _ _ hl] at hafter
            split at hafter
            · dsimp only at hafter
              by_cases htx : tx' = tx
              · subst htx
                rw [lookupA_insertA_self] at hafter
                injection hafter with h0
                rw [← h0] at hcb
                simp at hcb
              · rw [lookupA_insertA_ne _ _ _ _ htx] at hafter
                exact Or.inl ⟨d', hafter, hcb⟩
            · exact Or.inl ⟨d', hafter, hcb⟩
      | Chargeback =>
          rcases hl : lookupA (getAcc accounts c).deposits tx' with _ | d0
          · rw [applyTx_chargeback_miss _ _ _ _ hl] at hafter
            exact Or.inl ⟨d', hafter, hcb⟩
          · rw [applyTx_chargeback_hit _ _ _ _ _ hl] at hafter
            split at hafter
            · next hstate =>
                dsimp only at hafter
                by_cases htx : tx' = tx
                · subst htx
                  exact Or.inr ⟨rfl, rfl, rfl, d0, hl, hstate⟩
                · rw [lookupA_insertA_ne _ _ _ _ htx] at hafter
                  exact Or.inl ⟨d', hafter, hcb⟩
            · exact Or.inl ⟨d', hafter, hcb⟩
    · rw [if_neg hc] at hafter
      exact Or.inl ⟨d', hafter, hcb⟩
  · intro d hd hcb hnot
    rw [getAcc_processRow]
    by_cases hc : row.client = c
    · rw [if_pos hc]
      obtain ⟨typ, cl, tx', a⟩ := row
      dsimp only at hc hnot ⊢
      subst cl
      cases typ with
      | Deposit =>
          cases a with
          | none => rw [applyTx_deposit_none]; exact hd
          | some q =>
              rw [applyTx_deposit]
              dsimp only
              have htx : tx' ≠ tx := fun h => hnot ⟨rfl, rfl, h, by simp⟩
              rw [lookupA_insertA_ne _ _ _ _ htx]
              exact hd
      | Withdrawal =>
          cases a with
          | none => rw [applyTx_withdrawal_none]; exact hd
          | some q =>
              rw [applyTx_withdrawal]
              split
              · exact hd
              · split
                · dsimp only
                  exact hd
                · exact hd
      | Dispute =>
          rcases hl : lookupA (getAcc accounts c).deposits tx' with _ | d0
          · rw [applyTx_dispute_miss _ _ _ _ hl]; exact hd
          · rw [applyTx_dispute_hit _ _ _ _ _ hl]
            split
            · next hstate =>
                dsimp only
                by_cases htx : tx' = tx
                · subst htx
                  rw [hl] at hd
                  injection hd with h0
                  rw [h0, hcb] at hstate
                  simp at hstate
                · rw [lookupA_insertA_ne _ _ _ _ htx]
                  exact hd
            · exact hd
      | Resolve =>
          rcases hl : lookupA (getAcc accounts c).deposits tx' with _ | d0
          · rw [applyTx_resolve_miss _ _ _ _ hl]; exact hd
          · rw [applyTx_resolve_hit _ _ _ _ _ hl]
            split
            · next hstate =>
                dsimp only
                by_cases htx : tx' = tx
                · subst htx
                  rw [hl] at hd
                  injection hd with h0
                  rw [h0, hcb] at hstate
                  simp at hstate
                · rw [lookupA_insertA_ne _ _ _ _ htx]
                  exact hd
            · exact hd
      | Chargeback =>
          rcases hl : lookupA (getAcc accounts c).deposits tx' with _ | d0
          · rw [applyTx_chargeback_miss _ _ _ _ hl]; exact hd
          · rw [applyTx_chargeback_hit _ _ _ _ _ hl]
            split
            · next hstate =>
                dsimp only
                by_cases htx : tx' = tx
                · subst htx
                  rw [hl] at hd
                  injection hd with h0
                  rw [h0, hcb] at hstate
                  simp at hstate
                · rw [lookupA_insertA_ne _ _ _ _ htx]
                  exact hd
            · exact hd
    · rw [if_neg hc]
      exact hd

/-- Witness for C5 on a concrete map: tx 3 is already charged back and a
Dispute event on it leaves the record untouched. -/
theorem dispute_state_machine_witness :
    lookupA (getAcc sampleMap 0).deposits 3
      = some ⟨DisputeState.ChargedBack, 7000⟩
    ∧ lookupA
        (getAcc (processRow sampleMap ⟨TxType.Dispute, 0, 3, none⟩) 0).deposits 3
      = some ⟨DisputeState.ChargedBack, 7000⟩ :=
  ⟨by decide,
    (dispute_state_machine sampleMap ⟨TxType.Dispute, 0, 3, none⟩ 0 3).2.2
      ⟨DisputeState.ChargedBack, 7000⟩ (by decide) rfl (by simp)⟩

/-- Counterexample to C5 as stated: after deposit, dispute, chargeback of
tx 1 the record is `ChargedBack`, yet one more Deposit event reusing
tx 1 changes that state back to `NotInitiated`, so `ChargedBack` is not
preserved by every subsequent event. -/
theorem dispute_state_terminal_counterexample :
    (lookupA (getAcc (process
        [⟨TxType.Deposit, 0, 1, some 1⟩, ⟨TxType.Dispute, 0, 1, none⟩,
         ⟨TxType.Chargeback, 0, 1, none⟩]) 0).deposits 1).map
        Deposit.dispute_state = some DisputeState.ChargedBack
    ∧ (lookupA (getAcc (process
        [⟨TxType.Deposit, 0, 1, some 1⟩, ⟨TxType.Dispute, 0, 1, none⟩,
         ⟨TxType.Chargeback, 0, 1, none⟩, ⟨TxType.Deposit, 0, 1, some 1⟩]) 0).deposits 1).map
        Deposit.dispute_state = some DisputeState.NotInitiated := by
  constructor <;>
    simp [process, processRow, applyTx, getAcc, lookupA, insertA, to_minor_one]

/-- C6: once an account is locked the flag survives every later event;
after any continuation of the stream a Withdrawal event for that client
leaves the client's account (its available balance included) completely
unchanged, whatever the amount or the funds; and Deposit, Dispute,
Resolve and Chargeback events keep their full effect on a locked
account. -/
theorem locked_account_rules (accounts : List (Nat × Account)) (c : Nat)
    (h : (getAcc accounts c).locked = true) :
    (∀ rows : List InRow,
      (getAcc (rows.foldl processRow accounts) c).locked = true)
    ∧ (∀ rows : List InRow, ∀ tx : Nat, ∀ q : ℚ,
        getAcc (processRow (rows.foldl processRow accounts)
            ⟨TxType.Withdrawal, c, tx, some q⟩) c
          = getAcc (rows.foldl processRow accounts) c)
    ∧ (∀ tx : Nat, ∀ q : ℚ,
        (applyTx (getAcc accounts c) ⟨TxType.Deposit, c, tx, some q⟩).available
          = (getAcc accounts c).available + to_minor q
        ∧ lookupA (applyTx (getAcc accounts c)
              ⟨TxType.Deposit, c, tx, some q⟩).deposits tx
            = some ⟨DisputeState.NotInitiated, to_minor q⟩)
    ∧ (∀ tx : Nat, ∀ d : Deposit,
        lookupA (getAcc accounts c).deposits tx = some d →
        d.dispute_state = DisputeState.NotInitiated →
        applyTx (getAcc accounts c) ⟨TxType.Dispute, c, tx, none⟩
          = { getAcc accounts c with
              deposits :=
                insertA (getAcc accounts c).deposits tx
                  ⟨DisputeState.Initiated, d.amount⟩,
              available := (getAcc accounts c).available - d.amount,
              held := (getAcc accounts c).held + d.amount })
    ∧ (∀ tx : Nat, ∀ d : Deposit,
        lookupA (getAcc accounts c).deposits tx = some d →
        d.dispute_state = DisputeState.Initiated →
        applyTx (getAcc accounts c) ⟨TxType.Resolve, c, tx, none⟩
          = { getAcc accounts c with
              deposits :=
                insertA (getAcc accounts c).deposits tx
                  ⟨DisputeState.NotInitiated, d.amount⟩,
              available := (getAcc accounts c).available + d.amount,
              held := (getAcc accounts c).held - d.amount }
        ∧ applyTx (getAcc accounts c) ⟨TxType.Chargeback, c, tx, none⟩
          = { getAcc accounts c with
              deposits :=
                insertA (getAcc accounts c).deposits tx
                  ⟨DisputeState.ChargedBack, d.amount⟩,
              held := (getAcc accounts c).held - d.amount,
              locked := true }) := by
  refine ⟨fun rows => getAcc_foldl_locked rows accounts c h, ?_, ?_, ?_, ?_⟩
  · intro rows tx q
    have hm : (getAcc (rows.foldl processRow accounts) c).locked = true :=
      getAcc_foldl_locked rows accounts c h
    rw [getAcc_processRow]
    simp only [if_pos rfl]
    exact applyTx_withdrawal_locked _ c tx q hm
  · intro tx q
    rw [applyTx_deposit]
    exact ⟨rfl, lookupA_insertA_self _ _ _⟩
  · intro tx d hd hs
    rw [applyTx_dispute_hit _ _ _ _ _ hd]
    simp [hs]
  · intro tx d hd hs
    constructor
    · rw [applyTx_resolve_hit _ _ _ _ _ hd]
      simp [hs]
    · rw [applyTx_chargeback_hit _ _ _ _ _ hd]
      simp [hs]

/-- Witness for C6 on a concrete locked account: the lock persists over
any continuation of the stream. -/
theorem locked_account_rules_witness :
    (getAcc sampleLockedMap 0).locked = true
    ∧ ∀ rows : List InRow,
        (getAcc (rows.foldl processRow sampleLockedMap) 0).locked = true :=
  ⟨by decide, (locked_account_rules sampleLockedMap 0 (by decide)).1⟩

/-- C7 (amended): a Dispute whose tx matches no Deposit record in the
client's account changes no account's balances, held, lock or deposits,
and raises no error; the final mapping — and hence the emitted rows —
are identical to the event being absent whenever the client already has
an account.  When the client is brand-new the only difference is a
fresh all-default account row for that client, created by the
entry-or-default lookup that precedes the event match. -/
theorem dispute_unknown_tx (accounts : List (Nat × Account)) (c tx : Nat)
    (a : Option ℚ) (row : InRow) (hrow : row = ⟨TxType.Dispute, c, tx, a⟩)
    (h : lookupA (getAcc accounts c).deposits tx = none) :
    (∀ c', getAcc (processRow accounts row) c' = getAcc accounts c')
    ∧ ((lookupA accounts c).isSome →
        processRow accounts row = accounts
        ∧ outRows (processRow accounts row) = outRows accounts)
    ∧ (lookupA accounts c = none →
        processRow accounts row = accounts ++ [(c, ({} : Account))]) := by
  subst hrow
  have hnoop : applyTx (getAcc accounts c) ⟨TxType.Dispute, c, tx, a⟩
      = getAcc accounts c := applyTx_dispute_miss _ _ _ _ h
  refine ⟨getAcc_processRow_noop _ _ hnoop, ?_, ?_⟩
  · intro hsome
    obtain ⟨acc, hacc⟩ := Option.isSome_iff_exists.mp hsome
    have heq : processRow accounts ⟨TxType.Dispute, c, tx, a⟩ = accounts := by
      rw [processRow]
      dsimp only
      rw [hnoop, getAcc, hacc]
      exact insertA_lookupA_self _ _ _ hacc
    exact ⟨heq, by rw [heq]⟩
  · intro hnone
    rw [processRow]
    dsimp only
    rw [hnoop, getAcc, hnone]
    exact insertA_append_of_none _ _ _ hnone

/-- Witness for C7 on a concrete map: tx 99 matches no deposit of
client 0, and the dispute leaves the mapping and the emitted rows
untouched. -/
theorem dispute_unknown_tx_witness :
    lookupA (getAcc sampleMap 0).deposits 99 = none
    ∧ (processRow sampleMap ⟨TxType.Dispute, 0, 99, none⟩ = sampleMap
      ∧ outRows (processRow sampleMap ⟨TxType.Dispute, 0, 99, none⟩)
          = outRows sampleMap) :=
  ⟨by decide,
    (dispute_unknown_tx sampleMap 0 99 none _ rfl (by decide)).2.1 (by decide)⟩

/-- Counterexample to C7 as stated: a Dispute referencing a nonexistent
tx for a brand-new client does change the final account mapping and the
emitted rows — a fresh all-default row for that client appears, because
every event creates its client's account entry before being checked. -/
theorem dispute_unknown_tx_counterexample :
    process [⟨TxType.Dispute, 0, 0, none⟩] ≠ process []
    ∧ outRows (process [⟨TxType.Dispute, 0, 0, none⟩]) ≠ outRows (process []) := by
  constructor <;> decide

/-- C8: a Deposit event whose tx already keys a Deposit record in the
client's account overwrites that record with the new amount and a
dispute state reset to `NotInitiated`, and still credits available with
the new amount; held and the lock flag are untouched, so nothing of the
overwritten record is reconciled. -/
theorem deposit_overwrite (accounts : List (Nat × Account)) (c tx : Nat)
    (q : ℚ) (dOld : Deposit)
    (h : lookupA (getAcc accounts c).deposits tx = some dOld)
    (row : InRow) (hrow : row = ⟨TxType.Deposit, c, tx, some q⟩) :
    getAcc (processRow accounts row) c =
      { getAcc accounts c with
          available := (getAcc accounts c).available + to_minor q,
          deposits :=
            insertA (getAcc accounts c).deposits tx
              ⟨DisputeState.NotInitiated, to_minor q⟩ }
    ∧ lookupA (getAcc (processRow accounts row) c).deposits tx
        = some ⟨DisputeState.NotInitiated, to_minor q⟩
    ∧ (getAcc (processRow accounts row) c).held = (getAcc accounts c).held
    ∧ (getAcc (processRow accounts row) c).locked = (getAcc accounts c).locked := by
  subst hrow
  have hstep : getAcc (processRow accounts ⟨TxType.Deposit, c, tx, some q⟩) c =
      { getAcc accounts c with
          available := (getAcc accounts c).available + to_minor q,
          deposits :=
            insertA (getAcc accounts c).deposits tx
              ⟨DisputeState.NotInitiated, to_minor q⟩ } := by
    rw [getAcc_processRow]
    simp only [if_pos rfl]
    rw [applyTx_deposit]
    simp
  refine ⟨hstep, ?_, ?_, ?_⟩ <;> rw [hstep]
  exact lookupA_insertA_self _ _ _

/-- Witness for C8 on a concrete map: re-depositing under tx 1, which
already keys a deposit of 10000 minor units, overwrites it. -/
theorem deposit_overwrite_witness :
    lookupA (getAcc sampleMap 0).deposits 1
      = some ⟨DisputeState.NotInitiated, 10000⟩
    ∧ (getAcc (processRow sampleMap ⟨TxType.Deposit, 0, 1, some 2⟩) 0 =
        { getAcc sampleMap 0 with
            available := (getAcc sampleMap 0).available + to_minor 2,
            deposits :=
              insertA (getAcc sampleMap 0).deposits 1
                ⟨DisputeState.NotInitiated, to_minor 2⟩ }
      ∧ lookupA (getAcc (processRow sampleMap ⟨TxType.Deposit, 0, 1, some 2⟩) 0).deposits 1
          = some ⟨DisputeState.NotInitiated, to_minor 2⟩
      ∧ (getAcc (processRow sampleMap ⟨TxType.Deposit, 0, 1, some 2⟩) 0).held
          = (getAcc sampleMap 0).held
      ∧ (getAcc (processRow sampleMap ⟨TxType.Deposit, 0, 1, some 2⟩) 0).locked
          = (getAcc sampleMap 0).locked) :=
  ⟨by decide,
    deposit_overwrite sampleMap 0 1 2 ⟨DisputeState.NotInitiated, 10000⟩
      (by decide) _ rfl⟩

/-- C10: a Deposit event reusing the tx of a deposit whose dispute is
pending (`Initiated`) overwrites the record with state `NotInitiated`
and the new amount, credits available, and leaves held unchanged — so
the amount the pending dispute moved to held stays there: a Resolve of
that tx is now a no-op, and a fresh dispute/resolve cycle on the
overwritten record operates on the new amount and returns the account
exactly to its post-overwrite state. -/
theorem deposit_overwrite_of_disputed (acc acc' : Account) (c tx : Nat)
    (q : ℚ) (d : Deposit)
    (hd : lookupA acc.deposits tx = some d)
    (hs : d.dispute_state = DisputeState.Initiated)
    (hacc : acc' = applyTx acc ⟨TxType.Deposit, c, tx, some q⟩) :
    lookupA acc'.deposits tx = some ⟨DisputeState.NotInitiated, to_minor q⟩
    ∧ acc'.held = acc.held
    ∧ acc'.available = acc.available + to_minor q
    ∧ applyTx acc' ⟨TxType.Resolve, c, tx, none⟩ = acc'
    ∧ applyTx (applyTx acc' ⟨TxType.Dispute, c, tx, none⟩)
        ⟨TxType.Resolve, c, tx, none⟩ = acc' := by
  rw [applyTx_deposit] at hacc
  subst hacc
  have h1 : lookupA
      (insertA acc.deposits tx ⟨DisputeState.NotInitiated, to_minor q⟩) tx
      = some ⟨DisputeState.NotInitiated, to_minor q⟩ := lookupA_insertA_self _ _ _
  refine ⟨h1, rfl, rfl, ?_, ?_⟩
  · rw [applyTx_resolve_hit _ _ _ _ _ h1]
    simp
  · exact dispute_then_resolve _ c c tx none none
      ⟨DisputeState.NotInitiated, to_minor q⟩ h1 rfl

/-- Witness for C10 on a concrete account: tx 2 is under dispute with
5000 minor units held; re-depositing 1 under tx 2 resets the record and
strands the held amount. -/
theorem deposit_overwrite_of_disputed_witness :
    (lookupA sampleAcc.deposits 2 = some ⟨DisputeState.Initiated, 5000⟩
      ∧ (⟨DisputeState.Initiated, 5000⟩ : Deposit).dispute_state
          = DisputeState.Initiated)
    ∧ (lookupA (applyTx sampleAcc ⟨TxType.Deposit, 0, 2, some 1⟩).deposits 2
        = some ⟨DisputeState.NotInitiated, to_minor 1⟩
      ∧ (applyTx sampleAcc ⟨TxType.Deposit, 0, 2, some 1⟩).held = sampleAcc.held
      ∧ (applyTx sampleAcc ⟨TxType.Deposit, 0, 2, some 1⟩).available
          = sampleAcc.available + to_minor 1
      ∧ applyTx (applyTx sampleAcc ⟨TxType.Deposit, 0, 2, some 1⟩)
          ⟨TxType.Resolve, 0, 2, none⟩
          = applyTx sampleAcc ⟨TxType.Deposit, 0, 2, some 1⟩
      ∧ applyTx (applyTx (applyTx sampleAcc ⟨TxType.Deposit, 0, 2, some 1⟩)
            ⟨TxType.Dispute, 0, 2, none⟩) ⟨TxType.Resolve, 0, 2, none⟩
          = applyTx sampleAcc ⟨TxType.Deposit, 0, 2, some 1⟩) :=
  ⟨⟨by decide, rfl⟩,
    deposit_overwrite_of_disputed sampleAcc _ 0 2 1
      ⟨DisputeState.Initiated, 5000⟩ (by decide) rfl rfl⟩
